import Mathlib

/-!
Verification of the DCF-simulator projection-and-valuation engine
(`src/lib.rs` of minzoong/dcf_simulator).

The engine's own code — `calculate_cashflow`, `calculate_dcf`, and the
terminal-value / plot fragments of `update` — is embedded below over ℚ
(idealising `f64` arithmetic as exact field arithmetic, with IEEE
infinity/NaN modelled explicitly where a claim depends on them via `Fp`).

External collaborators that the engine calls but whose code is not part of
the repository are modelled as an abstract environment `Env`:
  * `meval` expression parsing/binding/evaluation
    (`Expr::from_str`, `bind`, `bind2`, `eval`),
  * `f64::from_str` (free-text float parsing),
  * the `ode_solvers` Dopri5 adaptive integrator (`solver.integrate()`
    together with its `x_out()` / `y_out()` accessors).
Theorems about runs of the engine quantify over this environment,
adding explicit hypotheses where a property depends on the documented
shape of the external integrator's output.
-/

namespace DcfSim

/-- Value of `usize::MAX` on the native 64-bit target. -/
def usizeMax : ℕ := 2 ^ 64 - 1

/-- Rust `str::parse::<usize>()`: an optional leading `+` followed by one
or more ASCII digits, value required to fit in `usize`; anything else is
an error (`none`). Mirrors `e.end.parse::<usize>()` in `calculate_cashflow`. -/
def parseUsize (s : String) : Option ℕ :=
  let cs := s.data
  let ds := match cs with
    | '+' :: rest => rest
    | _ => cs
  if ds ≠ [] ∧ ds.all (fun c => c.isDigit) then
    let v := ds.foldl (fun a c => a * 10 + (c.toNat - 48)) 0
    if v ≤ usizeMax then some v else none
  else none

/-- One input row (`struct Row`): free-text end of period and expression. -/
structure Row where
  end_ : String
  expr : String

/-- The persisted input document (`struct StateData`). -/
structure StateData where
  rows : List Row
  growth : String
  discount : String
  ode_step_size : String
  use_log_scale : Bool

/-- The data handed to the external Dopri5 integrator in the ODE branch of
`calculate_cashflow` (lines 203–208): right-hand side `f(t, y)`, the local
time interval `[t0, tEnd]`, the step hint `h`, the initial value `y0`, and
the two error tolerances. -/
structure SolverInput where
  f : ℚ → ℚ → ℚ
  t0 : ℚ
  tEnd : ℚ
  h : ℚ
  y0 : ℚ
  rtol : ℚ
  atol : ℚ

/-- Abstract environment for the external libraries the engine calls.

* `parseF s`  — `s.parse::<f64>()`, idealised to an exact rational;
* `evalConst s` — `Expr::from_str(s)` followed by `.eval()`
  (`none` if either step errors);
* `bind1 s` — `Expr::from_str(s)` followed by `.bind("t")`;
* `bind2 s` — `Expr::from_str(s)` followed by `.bind2("t", "y")`;
* `solve inp` — `Dopri5::new(...).integrate()`: `none` on solver error,
  otherwise the pair `(x_out, y_out)` of output times and values. -/
structure Env where
  parseF : String → Option ℚ
  evalConst : String → Option ℚ
  bind1 : String → Option (ℚ → ℚ)
  bind2 : String → Option (ℚ → ℚ → ℚ)
  solve : SolverInput → Option (List ℚ × List ℚ)

/-- Rust `String::contains(char)`: some character of the string equals `c`. -/
def strContains (s : String) (c : Char) : Bool := s.data.contains c

/-- Zero-fill fallback used by every failure arm of `calculate_cashflow`:
`output.extend(std::iter::repeat(0.0).take(period - prev_period))`. -/
def zeroFill (output : List ℚ) (n : ℕ) : List ℚ := output ++ List.replicate n 0

/-- The resampling loop of the ODE branch (lines 214–220):

    for (i, &x) in x_out.iter().enumerate() {
        if x - (n_counter as f64) > -step {
            output.push(y_out[i]);
            n_counter += 1;
        }
    }

given here the zipped `(x_out[i], y_out[i])` pairs, the `step` spacing and
the starting `n_counter`. -/
def resampleGo : List (ℚ × ℚ) → ℚ → ℕ → List ℚ
  | [], _, _ => []
  | (x, yv) :: rest, step, n =>
    if x - (n : ℚ) > -step then yv :: resampleGo rest step (n + 1)
    else resampleGo rest step n

/-- The ODE solve-and-resample part of a segment (lines 196–228), after the
expression has been bound as `f(t, y)`: build the solver input with
`t0 = 0`, `t_end = len`, the parsed step hint (fallback 1.0), initial value
`y(0)` = last output sample (or 0), tolerances `1e-10`; on solver error
return the zero-fill, otherwise resample the trajectory with
`step = x_out[1] - x_out[0]` and the counter starting at 0 exactly when the
output series is still empty.  Returns `none` where the Rust code panics:
`x_out[1]` indexes out of bounds whenever the integrator yields fewer than
two output points.  (The Rust loop also indexes `y_out[i]`; Dopri5 returns
`x_out` and `y_out` of equal length, which theorems make explicit where it
matters — the zip below truncates to the shorter list.) -/
def odeEval (env : Env) (hStr : String) (output : List ℚ) (len : ℕ)
    (f : ℚ → ℚ → ℚ) : Option (List ℚ) :=
  match env.solve ⟨f, 0, (len : ℚ), (env.parseF hStr).getD 1,
      (output.getLast?).getD 0, 1 / 10 ^ 10, 1 / 10 ^ 10⟩ with
  | none => some (zeroFill output len)
  | some (xOut, yOut) =>
    match xOut with
    | x0 :: x1 :: _ =>
      some (output ++ resampleGo (xOut.zip yOut) (x1 - x0)
        (if output.isEmpty then 0 else 1))
    | _ => none

/-- One segment's evaluation (the body of the `for` loop of
`calculate_cashflow`, lines 178–290, after the monotonicity check), given
the output series so far and the segment length `len = period - prev_period`.
Returns the new output series, or `none` where the Rust code panics
(see `odeEval`). -/
def segEval (env : Env) (hStr : String) (output : List ℚ) (len : ℕ)
    (expr : String) : Option (List ℚ) :=
  if strContains expr 'y' then
    -- ODE function model (lines 179–228)
    match env.bind2 expr with
    | none => some (zeroFill output len)
    | some f => odeEval env hStr output len f
  else if strContains expr 't' then
    -- univariant function model (lines 231–258)
    match env.bind1 expr with
    | none => some (zeroFill output len)
    | some f =>
      let output := if output.isEmpty then output ++ [f 0] else output
      some (output ++ (List.range len).map (fun t : ℕ => f ((t : ℚ) + 1)))
  else
    -- constant function model (lines 261–289)
    match env.evalConst expr with
    | none => some (zeroFill output len)
    | some c =>
      let output := if output.isEmpty then output ++ [c] else output
      some (output ++ List.replicate len c)

/-- Result of processing one row: continue with a new state, abort the whole
projection (`return None`, line 175), or hit the panicking index of the ODE
branch. -/
inductive StepRes where
  | ok (st : List ℚ × ℕ)
  | abort
  | panicked
deriving DecidableEq

/-- One iteration of the `for` loop of `calculate_cashflow`
(lines 172–291): parse the row's end period with fallback 0, abort if it
decreased, otherwise evaluate the segment and carry
`prev_period = period`. -/
def stepRow (env : Env) (hStr : String) (st : List ℚ × ℕ) (row : Row) :
    StepRes :=
  let period := (parseUsize row.end_).getD 0
  if period < st.2 then .abort
  else
    match segEval env hStr st.1 (period - st.2) row.expr with
    | some out' => .ok (out', period)
    | none => .panicked

/-- Result of the whole projection: `Some(output)`, `None`, or a panic. -/
inductive CFRes where
  | success (cf : List ℚ)
  | abort
  | panicked
deriving DecidableEq

/-- The fold of `calculate_cashflow` over the rows. -/
def calcRows (env : Env) (hStr : String) : List Row → (List ℚ × ℕ) → CFRes
  | [], st => .success st.1
  | r :: rs, st =>
    match stepRow env hStr st r with
    | .ok st' => calcRows env hStr rs st'
    | .abort => .abort
    | .panicked => .panicked

/-- `AppState::calculate_cashflow` (lines 168–294): walk the rows starting
from an empty output and `prev_period = 0`. -/
def calculate_cashflow (env : Env) (doc : StateData) : CFRes :=
  calcRows env doc.ode_step_size doc.rows ([], 0)

/-- One output record of `calculate_dcf` (`struct DcfData`). -/
structure DcfData where
  cashflow : ℚ
  dcf_unit : ℚ
  dcf_sum : ℚ
deriving DecidableEq

/-- The loop of `calculate_dcf` (lines 300–305), with the parsed discount
rate `r`, the running discount factor and the running sum as parameters:

    let dcf_unit = cashflow / discount;
    dcf_sum += dcf_unit;
    discount *= r;
    output.push(DcfData { cashflow, dcf_unit, dcf_sum });
-/
def dcfGo (r : ℚ) : List ℚ → ℚ → ℚ → List DcfData
  | [], _, _ => []
  | c :: cs, discount, sum =>
    let dcf_unit := c / discount
    let sum' := sum + dcf_unit
    ⟨c, dcf_unit, sum'⟩ :: dcfGo r cs (discount * r) sum'

/-- `AppState::calculate_dcf` (lines 296–307): initial discount factor 1.0,
initial sum 0.0, discount rate parsed from the document with fallback 1.0. -/
def calculate_dcf (env : Env) (doc : StateData) (cashflow : List ℚ) :
    List DcfData :=
  dcfGo ((env.parseF doc.discount).getD 1) cashflow 1 0

/-- The discount factor of period `i` as the spec words it:
`factor_0 = 1.0` and `factor_(i+1) = factor_i * r`. -/
def dfac (r : ℚ) : ℕ → ℚ
  | 0 => 1
  | n + 1 => dfac r n * r

/-- An IEEE double that is either a finite value of `α`, an infinity, or
NaN; used where the code's output genuinely leaves the finite range. -/
inductive Fp (α : Type) where
  | fin (x : α)
  | pinf
  | ninf
  | nan
deriving DecidableEq

/-- True exactly on the non-finite doubles (±∞ and NaN). -/
def Fp.isNonFinite {α : Type} : Fp α → Bool
  | .fin _ => false
  | _ => true

/-- The terminal value displayed by `update` (lines 535–538):

    dcf_data.last().map(|d| {
        let growth = self.state.growth.parse().unwrap_or(1.0);
        (d.cashflow * growth) / (self.state.discount.parse().unwrap_or(1.0) - growth)
    }).unwrap_or(0.0)

The subtraction and product of the parsed (finite) inputs are finite; the
unguarded division follows the IEEE rules for division by an exact zero:
positive numerator gives `+∞`, negative gives `-∞`, zero gives NaN. -/
def displayedTerminal (env : Env) (doc : StateData) (dcfData : List DcfData) :
    Fp ℚ :=
  match dcfData.getLast? with
  | some d =>
    let growth := (env.parseF doc.growth).getD 1
    let num := d.cashflow * growth
    let denom := (env.parseF doc.discount).getD 1 - growth
    if denom = 0 then
      if 0 < num then .pinf else if num < 0 then .ninf else .nan
    else .fin (num / denom)
  | none => .fin 0

/-- IEEE addition of a (possibly non-finite) double and a finite one:
infinities and NaN absorb the finite summand. -/
def fpAddFin : Fp ℚ → ℚ → Fp ℚ
  | .fin q, s => .fin (q + s)
  | .pinf, _ => .pinf
  | .ninf, _ => .ninf
  | .nan, _ => .nan

/-- The total shown as "DCF Result" by `update` (line 543):
`terminal_value + dcf_data.last().map(|d| d.dcf_sum).unwrap_or(0.0)`. -/
def displayedTotal (env : Env) (doc : StateData) (dcfData : List DcfData) :
    Fp ℚ :=
  fpAddFin (displayedTerminal env doc dcfData)
    (((dcfData.getLast?).map DcfData.dcf_sum).getD 0)

/-- IEEE `f64::log10` on a finite double: `-∞` at zero, NaN on negatives. -/
noncomputable def fpLog10 (y : ℝ) : Fp ℝ :=
  if 0 < y then .fin (Real.logb 10 y) else if y = 0 then .ninf else .nan

/-- Rust `f64::max(0.0, v)`: NaN is ignored (the other operand is
returned), `-∞` is below `0.0`, `+∞` is above. -/
def fpMax0 : Fp ℝ → Fp ℝ
  | .fin x => .fin (max 0 x)
  | .pinf => .pinf
  | .ninf => .fin 0
  | .nan => .fin 0

/-- The plotted points built by `update` (lines 494–500):

    cashflow.iter().enumerate().map(|(x, &y)| {
        if self.state.use_log_scale {
            [x as f64, f64::max(0.0, y.log10())]
        } else {
            [x as f64, y]
        }
    })
-/
noncomputable def plotPoints (use_log_scale : Bool) (cashflow : List ℝ) :
    List (ℕ × Fp ℝ) :=
  cashflow.enum.map (fun p =>
    (p.1, if use_log_scale then fpMax0 (fpLog10 p.2) else .fin p.2))

/-- The per-sample transform as the spec words it: `log10(max(value, 0))`,
the clamp applied to the input of the logarithm. -/
noncomputable def specLogOfClamped (y : ℝ) : Fp ℝ := fpLog10 (max y 0)

/-- A row sequence is bad when some row's parsed end period (fallback 0)
drops below the running previous end period. -/
def badSeq : ℕ → List Row → Prop
  | _, [] => False
  | prev, r :: rest =>
    (parseUsize r.end_).getD 0 < prev ∨ badSeq ((parseUsize r.end_).getD 0) rest

/-- The external integrator, whenever it succeeds, returns at least two
output times (so `x_out[1]` is in bounds). -/
def SolverWellFormed (env : Env) : Prop :=
  ∀ inp xs ys, env.solve inp = some (xs, ys) → 2 ≤ xs.length

/-- Side condition of the amended C3 on the external integrator: whenever
it succeeds, it returns its trajectory on the uniform dense-output grid
`0, s, 2s, …` of some spacing `0 < s ≤ 1` that ends exactly at `tEnd`,
with equally many output values.  This holds for Dopri5's dense output
when the configured spacing `ode_step_size` is at most 1 and divides the
segment length (in particular for the default `0.01` over integer segment
lengths); it is *not* a property of every reachable configuration — a
spacing above 1 (e.g. `"3"`, see `envBad`) breaks the resampling count,
which is exactly the corrected part of C3. -/
def SolverGrid (env : Env) : Prop :=
  ∀ inp xs ys, env.solve inp = some (xs, ys) →
    ∃ (s : ℚ) (K : ℕ), 0 < s ∧ s ≤ 1 ∧ (K : ℚ) * s = inp.tEnd ∧
      xs = (List.range (K + 1)).map (fun k : ℕ => (k : ℚ) * s) ∧
      ys.length = xs.length

/-- A segment whose expression fails at its branch's parse/bind/eval stage,
or whose ODE integration fails (the four `Err(_)` arms of
`calculate_cashflow`). -/
def segFails (env : Env) (hStr : String) (output : List ℚ) (len : ℕ)
    (e : String) : Prop :=
  (strContains e 'y' = true ∧
    (env.bind2 e = none ∨
      ∃ f, env.bind2 e = some f ∧
        env.solve ⟨f, 0, (len : ℚ), (env.parseF hStr).getD 1,
          (output.getLast?).getD 0, 1 / 10 ^ 10, 1 / 10 ^ 10⟩ = none)) ∨
  (strContains e 'y' = false ∧ strContains e 't' = true ∧
    env.bind1 e = none) ∨
  (strContains e 'y' = false ∧ strContains e 't' = false ∧
    env.evalConst e = none)

/-- Concrete environment used by the witnesses: `meval` evaluates the
literal constants and `2*t` of the scenarios, `f64` parsing knows the
numerals that appear in the concrete documents, and the solver always
errors. -/
def envW : Env where
  parseF := fun s =>
    if s = "2" then some 2 else if s = "3" then some 3 else none
  evalConst := fun s =>
    if s = "5" then some 5 else if s = "10" then some 10 else none
  bind1 := fun s => if s = "2*t" then some (fun t => 2 * t) else none
  bind2 := fun _ => none
  solve := fun _ => none

/-- Variant of `envW` whose solver answers on inputs with `y0 = 99`;
it agrees with `envW` on every input with `y0 = 5`. -/
def envW2 : Env :=
  { envW with solve := fun inp =>
      if inp.y0 = 99 then some ([0, 1], [0, 0]) else none }

/-- Scenario A document: one constant segment `end=3, expr="5"`. -/
def docA : StateData where
  rows := [⟨"3", "5"⟩]
  growth := "3"
  discount := "2"
  ode_step_size := "1"
  use_log_scale := false

/-- Scenario B document: one time-function segment `end=2, expr="2*t"`. -/
def docB : StateData where
  rows := [⟨"2", "2*t"⟩]
  growth := "3"
  discount := "2"
  ode_step_size := "1"
  use_log_scale := false

/-- Scenario C document: `end=2, expr="10"` then `end=5, expr="bad_syntax("`. -/
def docC : StateData where
  rows := [⟨"2", "10"⟩, ⟨"5", "bad_syntax("⟩]
  growth := "3"
  discount := "2"
  ode_step_size := "1"
  use_log_scale := false

/-- Scenario D document: ordering violation `end=1` then `end=0`. -/
def docD : StateData where
  rows := [⟨"1", "5"⟩, ⟨"0", "1"⟩]
  growth := "3"
  discount := "2"
  ode_step_size := "1"
  use_log_scale := false

/-- Environment whose integrator behaves like Dopri5 dense output with
spacing 1 on the interval `[0, 2]`: output times `[0, 1, 2]` with values
`[7, 8, 9]`; the expression `"y"` binds as `f(t, y) = y`. -/
def envG : Env where
  parseF := fun s => if s = "1" then some 1 else none
  evalConst := fun _ => none
  bind1 := fun _ => none
  bind2 := fun s => if s = "y" then some (fun _ y => y) else none
  solve := fun inp => if inp.tEnd = 2 then some ([0, 1, 2], [7, 8, 9]) else none

/-- Environment whose integrator behaves like Dopri5 dense output with the
user-configured spacing 3 on the interval `[0, 5]`: output times
`[0, 3, 5]` (the grid is cut off at `t_end`) with values `[7, 8, 9]`; the
expression `"y"` binds as `f(t, y) = y`.  This is the reachable
configuration `ode_step_size = "3"` over a length-5 segment. -/
def envBad : Env where
  parseF := fun s => if s = "3" then some 3 else none
  evalConst := fun _ => none
  bind1 := fun _ => none
  bind2 := fun s => if s = "y" then some (fun _ y => y) else none
  solve := fun inp => if inp.tEnd = 5 then some ([0, 3, 5], [7, 8, 9]) else none

/-- Document with a single ODE segment `end=5, expr="y"` and
`ode_step_size = "3"`. -/
def docE : StateData where
  rows := [⟨"5", "y"⟩]
  growth := "3"
  discount := "2"
  ode_step_size := "3"
  use_log_scale := false

/-! ## Helper lemmas -/

/-- The witness environment's solver never succeeds. -/
lemma envW_solve_none (inp : SolverInput) : envW.solve inp = none := rfl

lemma envW_solverWellFormed : SolverWellFormed envW := by
  intro inp xs ys h
  rw [envW_solve_none] at h
  exact absurd h (by simp)

lemma envW_solverGrid : SolverGrid envW := by
  intro inp xs ys h
  rw [envW_solve_none] at h
  exact absurd h (by simp)

/-- The ODE branch produces a value as long as the integrator yields at
least two output points whenever it succeeds. -/
lemma odeEval_isSome (env : Env) (hStr : String) (output : List ℚ) (len : ℕ)
    (f : ℚ → ℚ → ℚ) (hWF : SolverWellFormed env) :
    ∃ o, odeEval env hStr output len f = some o := by
  unfold odeEval
  split
  · exact ⟨_, rfl⟩
  · split
    · exact ⟨_, rfl⟩
    · exfalso
      rename_i xOut yOut hsolve xOut2 hshape
      have h2 := hWF _ _ _ hsolve
      rcases xOut with _ | ⟨a, _ | ⟨b, t⟩⟩
      · simp at h2
      · simp at h2
      · exact hshape a b t rfl

/-- Every branch of `segEval` produces a value as long as the integrator
yields at least two output points whenever it succeeds. -/
lemma segEval_isSome (env : Env) (hStr : String) (output : List ℚ) (len : ℕ)
    (e : String) (hWF : SolverWellFormed env) :
    ∃ o, segEval env hStr output len e = some o := by
  unfold segEval
  split
  · split
    · exact ⟨_, rfl⟩
    · exact odeEval_isSome env hStr output len _ hWF
  · split
    · split
      · exact ⟨_, rfl⟩
      · exact ⟨_, rfl⟩
    · split
      · exact ⟨_, rfl⟩
      · exact ⟨_, rfl⟩

/-- When the period did not decrease, a step neither aborts nor panics
(given a well-formed solver), and carries `prev_period = period`. -/
lemma stepRow_ok (env : Env) (hStr : String) (st : List ℚ × ℕ) (row : Row)
    (hWF : SolverWellFormed env)
    (h : ¬ (parseUsize row.end_).getD 0 < st.2) :
    ∃ out', stepRow env hStr st row = .ok (out', (parseUsize row.end_).getD 0) := by
  obtain ⟨o, ho⟩ := segEval_isSome env hStr st.1 ((parseUsize row.end_).getD 0 - st.2)
    row.expr hWF
  exact ⟨o, by simp [stepRow, if_neg h, ho]⟩

/-- A bad row sequence drives the fold of `calculate_cashflow` to `.abort`. -/
lemma calcRows_abort (env : Env) (hStr : String) (hWF : SolverWellFormed env) :
    ∀ (rows : List Row) (st : List ℚ × ℕ),
      badSeq st.2 rows → calcRows env hStr rows st = .abort := by
  intro rows
  induction rows with
  | nil => intro st h; exact h.elim
  | cons r rest ih =>
    intro st h
    rcases h with hv | hrest
    · simp [calcRows, stepRow, if_pos hv]
    · by_cases hlt : (parseUsize r.end_).getD 0 < st.2
      · simp [calcRows, stepRow, if_pos hlt]
      · obtain ⟨out', hstep⟩ := stepRow_ok env hStr st r hWF hlt
        rw [calcRows, hstep]
        exact ih (out', (parseUsize r.end_).getD 0) hrest

/-- An adjacent strict decrease of parsed end periods makes the sequence
bad from any starting point. -/
lemma badSeq_of_adjacent :
    ∀ (rows : List Row) (i : ℕ) (hi : i + 1 < rows.length),
      (parseUsize (rows.get ⟨i + 1, hi⟩).end_).getD 0 <
        (parseUsize (rows.get ⟨i, Nat.lt_of_succ_lt hi⟩).end_).getD 0 →
      ∀ prev, badSeq prev rows := by
  intro rows
  induction rows with
  | nil => intro i hi; simp at hi
  | cons r rest ih =>
    intro i hi hlt prev
    cases i with
    | zero =>
      cases rest with
      | nil => simp at hi
      | cons r1 rest' =>
        refine Or.inr (Or.inl ?_)
        simpa using hlt
    | succ i' =>
      refine Or.inr (ih i' (by simpa using hi) ?_ _)
      simpa using hlt

/-! ## C1: non-monotone end periods abort the whole projection -/

/-- C1. If any row's parsed end period (fallback 0) is strictly below the
previous row's parsed end period, `calculate_cashflow` returns no result at
all (`None`), no matter how many earlier segments evaluated successfully.
The external integrator is assumed to return at least two output points on
success (as Dopri5's dense output does), so that no earlier ODE segment
panics instead. -/
theorem cashflow_abort_of_nonmonotone (env : Env) (doc : StateData)
    (hWF : SolverWellFormed env)
    (h : ∃ (i : ℕ) (hi : i + 1 < doc.rows.length),
      (parseUsize (doc.rows.get ⟨i + 1, hi⟩).end_).getD 0 <
        (parseUsize (doc.rows.get ⟨i, Nat.lt_of_succ_lt hi⟩).end_).getD 0) :
    calculate_cashflow env doc = .abort := by
  obtain ⟨i, hi, hlt⟩ := h
  exact calcRows_abort env doc.ode_step_size hWF doc.rows ([], 0)
    (badSeq_of_adjacent doc.rows i hi hlt 0)

/-- Witness for C1 at scenario D (`end=1` then `end=0`). -/
theorem cashflow_abort_of_nonmonotone_witness :
    calculate_cashflow envW docD = .abort :=
  cashflow_abort_of_nonmonotone envW docD envW_solverWellFormed
    ⟨0, by decide, by decide⟩

/-! ## C2: shape of the DCF records -/

lemma dcfGo_length (r : ℚ) :
    ∀ (cf : List ℚ) (fac sum : ℚ), (dcfGo r cf fac sum).length = cf.length := by
  intro cf
  induction cf with
  | nil => intro fac sum; rfl
  | cons c cs ih => intro fac sum; simp [dcfGo, ih]

lemma dcfGo_get (r : ℚ) :
    ∀ (cf : List ℚ) (fac sum : ℚ) (i : ℕ) (h : i < cf.length)
      (h' : i < (dcfGo r cf fac sum).length),
      ((dcfGo r cf fac sum).get ⟨i, h'⟩).cashflow = cf.get ⟨i, h⟩ ∧
      ((dcfGo r cf fac sum).get ⟨i, h'⟩).dcf_unit =
        cf.get ⟨i, h⟩ / (fac * dfac r i) := by
  intro cf
  induction cf with
  | nil => intro fac sum i h; simp at h
  | cons c cs ih =>
    intro fac sum i h h'
    cases i with
    | zero => exact ⟨rfl, by simp [dcfGo, dfac]⟩
    | succ i' =>
      have hcs : i' < cs.length := by simpa using h
      have hcs' : i' < (dcfGo r cs (fac * r) (sum + c / fac)).length := by
        rw [dcfGo_length]; exact hcs
      have := ih (fac * r) (sum + c / fac) i' hcs hcs'
      refine ⟨this.1, ?_⟩
      rw [show ((dcfGo r (c :: cs) fac sum).get ⟨i' + 1, h'⟩) =
        ((dcfGo r cs (fac * r) (sum + c / fac)).get ⟨i', hcs'⟩) from rfl]
      rw [this.2, show fac * r * dfac r i' = fac * (dfac r i' * r) by ring]
      rfl

lemma dcfGo_sum_head (r : ℚ) (cf : List ℚ) (fac sum : ℚ)
    (h : 0 < (dcfGo r cf fac sum).length) :
    ((dcfGo r cf fac sum).get ⟨0, h⟩).dcf_sum =
      sum + ((dcfGo r cf fac sum).get ⟨0, h⟩).dcf_unit := by
  cases cf with
  | nil => simp [dcfGo] at h
  | cons c cs => rfl

lemma dcfGo_sum_succ (r : ℚ) :
    ∀ (cf : List ℚ) (fac sum : ℚ) (i : ℕ)
      (h : i + 1 < (dcfGo r cf fac sum).length),
      ((dcfGo r cf fac sum).get ⟨i + 1, h⟩).dcf_sum =
        ((dcfGo r cf fac sum).get ⟨i, Nat.lt_of_succ_lt h⟩).dcf_sum +
          ((dcfGo r cf fac sum).get ⟨i + 1, h⟩).dcf_unit := by
  intro cf
  induction cf with
  | nil => intro fac sum i h; simp [dcfGo] at h
  | cons c cs ih =>
    intro fac sum i h
    cases i with
    | zero =>
      have h0 : 0 < (dcfGo r cs (fac * r) (sum + c / fac)).length := by
        simpa [dcfGo] using Nat.lt_of_succ_lt_succ h
      have := dcfGo_sum_head r cs (fac * r) (sum + c / fac) h0
      exact this
    | succ i' => exact ih (fac * r) (sum + c / fac) i' (by simpa [dcfGo] using h)

/-- C2. `calculate_dcf` produces one record per cash-flow sample in order;
the discounted unit of record `i` is `cashflow[i] / factor_i` with
`factor_0 = 1` and `factor_(i+1) = factor_i * r` (the parsed discount rate
with fallback 1, multiplied in after period `i` is discounted, so period 0
is undiscounted); and the cumulative sum satisfies
`cumulative[i] = cumulative[i-1] + unit[i]` with
`cumulative[0] = unit[0]`. -/
theorem dcf_records_invariants (env : Env) (doc : StateData) (cf : List ℚ) :
    (calculate_dcf env doc cf).length = cf.length ∧
    (∀ (i : ℕ) (h : i < cf.length) (h' : i < (calculate_dcf env doc cf).length),
      ((calculate_dcf env doc cf).get ⟨i, h'⟩).cashflow = cf.get ⟨i, h⟩ ∧
      ((calculate_dcf env doc cf).get ⟨i, h'⟩).dcf_unit =
        cf.get ⟨i, h⟩ / dfac ((env.parseF doc.discount).getD 1) i) ∧
    (∀ (h : 0 < (calculate_dcf env doc cf).length),
      ((calculate_dcf env doc cf).get ⟨0, h⟩).dcf_sum =
        ((calculate_dcf env doc cf).get ⟨0, h⟩).dcf_unit) ∧
    (∀ (i : ℕ) (h : i + 1 < (calculate_dcf env doc cf).length),
      ((calculate_dcf env doc cf).get ⟨i + 1, h⟩).dcf_sum =
        ((calculate_dcf env doc cf).get ⟨i, Nat.lt_of_succ_lt h⟩).dcf_sum +
          ((calculate_dcf env doc cf).get ⟨i + 1, h⟩).dcf_unit) := by
  refine ⟨dcfGo_length ((env.parseF doc.discount).getD 1) cf 1 0, ?_, ?_, ?_⟩
  · intro i h h'
    have hget := dcfGo_get ((env.parseF doc.discount).getD 1) cf 1 0 i h h'
    exact ⟨hget.1, by rw [one_mul] at hget; exact hget.2⟩
  · intro h
    have hh := dcfGo_sum_head ((env.parseF doc.discount).getD 1) cf 1 0 h
    rw [zero_add] at hh
    exact hh
  · intro i h
    exact dcfGo_sum_succ ((env.parseF doc.discount).getD 1) cf 1 0 i h

/-- Witness for C2 on the concrete series `[4, 6]` with discount rate 2. -/
theorem dcf_records_invariants_witness :
    (calculate_dcf envW docA [4, 6]).length = 2 ∧
    ((calculate_dcf envW docA [4, 6]).get ⟨1, by
        simp [calculate_dcf, dcfGo]⟩).dcf_sum =
      ((calculate_dcf envW docA [4, 6]).get ⟨0, by
        simp [calculate_dcf, dcfGo]⟩).dcf_sum +
      ((calculate_dcf envW docA [4, 6]).get ⟨1, by
        simp [calculate_dcf, dcfGo]⟩).dcf_unit := by
  refine ⟨(dcf_records_invariants envW docA [4, 6]).1, ?_⟩
  exact (dcf_records_invariants envW docA [4, 6]).2.2.2 0 (by
    simp [calculate_dcf, dcfGo])

/-! ## Per-branch step equations -/

/-- Constant branch of the evaluator, lifted to one loop iteration. -/
lemma stepRow_const_eq (env : Env) (hStr : String) (out : List ℚ) (prev : ℕ)
    (row : Row) (c : ℚ)
    (hy : strContains row.expr 'y' = false)
    (ht : strContains row.expr 't' = false)
    (hc : env.evalConst row.expr = some c)
    (hle : prev ≤ (parseUsize row.end_).getD 0) :
    stepRow env hStr (out, prev) row =
      .ok ((if out.isEmpty then out ++ [c] else out) ++
          List.replicate ((parseUsize row.end_).getD 0 - prev) c,
        (parseUsize row.end_).getD 0) := by
  have hnlt : ¬ (parseUsize row.end_).getD 0 < prev := not_lt.mpr hle
  unfold stepRow segEval
  simp [hy, ht, hc, hnlt]

/-- Time-function branch of the evaluator, lifted to one loop iteration. -/
lemma stepRow_time_eq (env : Env) (hStr : String) (out : List ℚ) (prev : ℕ)
    (row : Row) (f : ℚ → ℚ)
    (hy : strContains row.expr 'y' = false)
    (ht : strContains row.expr 't' = true)
    (hf : env.bind1 row.expr = some f)
    (hle : prev ≤ (parseUsize row.end_).getD 0) :
    stepRow env hStr (out, prev) row =
      .ok ((if out.isEmpty then out ++ [f 0] else out) ++
          (List.range ((parseUsize row.end_).getD 0 - prev)).map
            (fun t : ℕ => f ((t : ℚ) + 1)),
        (parseUsize row.end_).getD 0) := by
  have hnlt : ¬ (parseUsize row.end_).getD 0 < prev := not_lt.mpr hle
  unfold stepRow segEval
  simp [hy, ht, hf, hnlt]

/-- A failing segment zero-fills its whole duration and the iteration
continues normally, carrying `prev_period = period`. -/
lemma stepRow_fail_eq (env : Env) (hStr : String) (out : List ℚ) (prev : ℕ)
    (row : Row)
    (hfail : segFails env hStr out ((parseUsize row.end_).getD 0 - prev) row.expr)
    (hle : prev ≤ (parseUsize row.end_).getD 0) :
    stepRow env hStr (out, prev) row =
      .ok (zeroFill out ((parseUsize row.end_).getD 0 - prev),
        (parseUsize row.end_).getD 0) := by
  have hnlt : ¬ (parseUsize row.end_).getD 0 < prev := not_lt.mpr hle
  unfold stepRow segEval
  rcases hfail with ⟨hy, hb⟩ | ⟨hy, ht, hb⟩ | ⟨hy, ht, hb⟩
  · rcases hb with hb | ⟨f, hf, hs⟩
    · simp [hy, hb, hnlt]
    · simp only [hy, hf, hnlt, if_true, if_false, ite_false, ite_true]
      unfold odeEval
      rw [hs]
  · simp [hy, ht, hb, hnlt]
  · simp [hy, ht, hb, hnlt]

/-! ## C5: constant segments -/

/-- C5. A segment whose expression contains neither `y` nor `t` and
evaluates to a scalar `c` appends `end_period - prev_period` copies of `c`,
plus one extra leading copy when the output series is still empty; in
particular one segment `end=3, expr="5"` yields `[5, 5, 5, 5]` in any
environment whose expression evaluator sends `"5"` to `5`. -/
theorem constant_segment :
    (∀ (env : Env) (hStr : String) (out : List ℚ) (prev : ℕ) (row : Row)
      (c : ℚ),
      strContains row.expr 'y' = false →
      strContains row.expr 't' = false →
      env.evalConst row.expr = some c →
      prev ≤ (parseUsize row.end_).getD 0 →
      stepRow env hStr (out, prev) row =
        .ok ((if out.isEmpty then out ++ [c] else out) ++
            List.replicate ((parseUsize row.end_).getD 0 - prev) c,
          (parseUsize row.end_).getD 0)) ∧
    (∀ env : Env, env.evalConst "5" = some 5 →
      calculate_cashflow env docA = .success [5, 5, 5, 5]) := by
  refine ⟨fun env hStr out prev row c hy ht hc hle =>
    stepRow_const_eq env hStr out prev row c hy ht hc hle, ?_⟩
  intro env h5
  have h1 := stepRow_const_eq env "1" [] 0 ⟨"3", "5"⟩ 5
    (by decide) (by decide) h5 (by decide)
  rw [show (parseUsize (⟨"3", "5"⟩ : Row).end_).getD 0 = 3 from by decide] at h1
  simp only [List.isEmpty_nil, if_true, List.nil_append] at h1
  unfold calculate_cashflow
  show calcRows env docA.ode_step_size [⟨"3", "5"⟩] ([], 0) = .success [5, 5, 5, 5]
  unfold calcRows
  rw [show docA.ode_step_size = "1" from rfl, h1]
  unfold calcRows
  norm_num [List.replicate]

/-- Witness for C5: a nonempty series gets no leading copy, and
scenario A produces `[5, 5, 5, 5]`. -/
theorem constant_segment_witness :
    stepRow envW "1" ([1], 0) ⟨"3", "5"⟩ = .ok ([1, 5, 5, 5], 3) ∧
    calculate_cashflow envW docA = .success [5, 5, 5, 5] := by
  constructor
  · have h1 := constant_segment.1 envW "1" [1] 0 ⟨"3", "5"⟩ 5
      (by decide) (by decide) (by decide) (by decide)
    rw [show (parseUsize (⟨"3", "5"⟩ : Row).end_).getD 0 = 3 from by decide] at h1
    simpa [List.replicate] using h1
  · exact constant_segment.2 envW (by decide)

/-! ## C6: time-function segments -/

/-- C6. A segment whose expression contains `t` but not `y` and binds as a
one-argument function `f` of `t` appends `f(τ)` for local times
`τ = 1, …, end_period - prev_period`, with an extra leading sample `f(0)`
emitted first when the output series is still empty; in particular one
segment `end=2, expr="2*t"` yields `[0, 2, 4]` in any environment whose
binder sends `"2*t"` to the doubling function. -/
theorem time_function_segment :
    (∀ (env : Env) (hStr : String) (out : List ℚ) (prev : ℕ) (row : Row)
      (f : ℚ → ℚ),
      strContains row.expr 'y' = false →
      strContains row.expr 't' = true →
      env.bind1 row.expr = some f →
      prev ≤ (parseUsize row.end_).getD 0 →
      stepRow env hStr (out, prev) row =
        .ok ((if out.isEmpty then out ++ [f 0] else out) ++
            (List.range ((parseUsize row.end_).getD 0 - prev)).map
              (fun t : ℕ => f ((t : ℚ) + 1)),
          (parseUsize row.end_).getD 0)) ∧
    (∀ env : Env, env.bind1 "2*t" = some (fun t => 2 * t) →
      calculate_cashflow env docB = .success [0, 2, 4]) := by
  refine ⟨fun env hStr out prev row f hy ht hf hle =>
    stepRow_time_eq env hStr out prev row f hy ht hf hle, ?_⟩
  intro env hf
  have h1 := stepRow_time_eq env "1" [] 0 ⟨"2", "2*t"⟩ (fun t => 2 * t)
    (by decide) (by decide) hf (by decide)
  rw [show (parseUsize (⟨"2", "2*t"⟩ : Row).end_).getD 0 = 2 from by decide] at h1
  simp only [List.isEmpty_nil, if_true, List.nil_append] at h1
  unfold calculate_cashflow
  show calcRows env docB.ode_step_size [⟨"2", "2*t"⟩] ([], 0) = .success [0, 2, 4]
  unfold calcRows
  rw [show docB.ode_step_size = "1" from rfl, h1]
  unfold calcRows
  norm_num [List.range_succ]

/-- Witness for C6: a nonempty series gets no leading sample, and
scenario B produces `[0, 2, 4]`. -/
theorem time_function_segment_witness :
    stepRow envW "1" ([7], 0) ⟨"2", "2*t"⟩ = .ok ([7, 2, 4], 2) ∧
    calculate_cashflow envW docB = .success [0, 2, 4] := by
  constructor
  · have h1 := time_function_segment.1 envW "1" [7] 0 ⟨"2", "2*t"⟩
      (fun t => 2 * t) (by decide) (by decide) (by rfl) (by decide)
    rw [show (parseUsize (⟨"2", "2*t"⟩ : Row).end_).getD 0 = 2 from by decide] at h1
    rw [h1]
    norm_num [List.range_succ]
  · exact time_function_segment.2 envW (by rfl)

/-! ## C4: zero-fill on expression or integration failure -/

/-- C4. A segment whose expression fails to parse, bind or evaluate in its
branch (or whose ODE integration fails) appends exactly
`end_period - prev_period` zeros and the projection continues with the
subsequent segments unaffected; in particular the two segments
`end=2, expr="10"` then `end=5, expr="bad_syntax("` yield
`[10, 10, 10, 0, 0, 0]` in any environment whose evaluator sends `"10"`
to `10` and fails to parse `"bad_syntax("`. -/
theorem zero_fill_on_failure :
    (∀ (env : Env) (hStr : String) (out : List ℚ) (prev : ℕ) (row : Row),
      segFails env hStr out ((parseUsize row.end_).getD 0 - prev) row.expr →
      prev ≤ (parseUsize row.end_).getD 0 →
      stepRow env hStr (out, prev) row =
        .ok (out ++ List.replicate ((parseUsize row.end_).getD 0 - prev) 0,
          (parseUsize row.end_).getD 0)) ∧
    (∀ env : Env, env.evalConst "10" = some 10 →
      env.bind2 "bad_syntax(" = none →
      calculate_cashflow env docC = .success [10, 10, 10, 0, 0, 0]) := by
  refine ⟨fun env hStr out prev row hfail hle =>
    stepRow_fail_eq env hStr out prev row hfail hle, ?_⟩
  intro env h10 hbad
  have h1 := stepRow_const_eq env "1" [] 0 ⟨"2", "10"⟩ 10
    (by decide) (by decide) h10 (by decide)
  rw [show (parseUsize (⟨"2", "10"⟩ : Row).end_).getD 0 = 2 from by decide] at h1
  simp only [List.isEmpty_nil, if_true, List.nil_append] at h1
  have h2 := stepRow_fail_eq env "1" [10, 10, 10] 2 ⟨"5", "bad_syntax("⟩
    (Or.inl ⟨by decide, Or.inl hbad⟩) (by decide)
  rw [show (parseUsize (⟨"5", "bad_syntax("⟩ : Row).end_).getD 0 = 5 from by decide] at h2
  unfold calculate_cashflow
  show calcRows env docC.ode_step_size [⟨"2", "10"⟩, ⟨"5", "bad_syntax("⟩]
    ([], 0) = .success [10, 10, 10, 0, 0, 0]
  unfold calcRows
  rw [show docC.ode_step_size = "1" from rfl, h1]
  have h1' : List.replicate 2 (10 : ℚ) = [10, 10] := by norm_num [List.replicate]
  rw [h1'] at *
  unfold calcRows
  rw [show ([10] ++ [10, 10] : List ℚ) = [10, 10, 10] from by norm_num] at *
  rw [h2]
  unfold calcRows
  norm_num [zeroFill, List.replicate]

/-- Witness for C4: a failing time-function segment zero-fills after a
nonempty series, and scenario C produces `[10, 10, 10, 0, 0, 0]`. -/
theorem zero_fill_on_failure_witness :
    stepRow envW "1" ([1], 0) ⟨"2", "t+("⟩ = .ok ([1, 0, 0], 2) ∧
    calculate_cashflow envW docC = .success [10, 10, 10, 0, 0, 0] := by
  constructor
  · have h1 := zero_fill_on_failure.1 envW "1" [1] 0 ⟨"2", "t+("⟩
      (Or.inr (Or.inl ⟨by decide, by decide, by rfl⟩)) (by decide)
    rw [show (parseUsize (⟨"2", "t+("⟩ : Row).end_).getD 0 = 2 from by decide] at h1
    simpa [List.replicate] using h1
  · exact zero_fill_on_failure.2 envW (by decide) (by rfl)

/-! ## C7: the ODE initial condition is the carry-in sample -/

/-- C7. For a segment classified as a differential equation (its expression
contains `y`), the initial value problem handed to the integrator has
`y(0)` equal to the last sample currently in the output series (the prior
segment's last emitted sample), or 0 if the series is empty: the step's
result depends on the solver only through its behaviour at that initial
condition, so two environments whose solvers agree on every input with
`y0 = output.getLast?.getD 0` (and share the expression binder and float
parser) produce identical steps. -/
theorem ode_initial_condition_carry (env₁ env₂ : Env) (hStr : String)
    (out : List ℚ) (prev : ℕ) (row : Row)
    (hy : strContains row.expr 'y' = true)
    (hb : env₁.bind2 = env₂.bind2)
    (hp : env₁.parseF = env₂.parseF)
    (hs : ∀ inp : SolverInput, inp.y0 = (out.getLast?).getD 0 →
      env₁.solve inp = env₂.solve inp) :
    stepRow env₁ hStr (out, prev) row = stepRow env₂ hStr (out, prev) row := by
  have key : ∀ (f : ℚ → ℚ → ℚ) (len : ℕ),
      odeEval env₂ hStr out len f = odeEval env₁ hStr out len f := by
    intro f len
    unfold odeEval
    rw [← hp, ← hs ⟨f, 0, (len : ℚ), (env₁.parseF hStr).getD 1,
      (out.getLast?).getD 0, 1 / 10 ^ 10, 1 / 10 ^ 10⟩ rfl]
  unfold stepRow segEval
  simp only [hy, eq_self_iff_true, if_true, ← hb, key]

/-- Witness for C7: the two concrete environments differ only in solver
answers at initial conditions other than the carry-in value 5, and indeed
produce the same step. -/
theorem ode_initial_condition_carry_witness :
    stepRow envW "1" ([5], 0) ⟨"2", "y"⟩ = stepRow envW2 "1" ([5], 0) ⟨"2", "y"⟩ := by
  refine ode_initial_condition_carry envW envW2 "1" [5] 0 ⟨"2", "y"⟩
    (by decide) rfl rfl ?_
  intro inp h
  show none = envW2.solve inp
  show none = if inp.y0 = 99 then some ([0, 1], [0, 0]) else none
  rw [show inp.y0 = (([5] : List ℚ).getLast?).getD 0 from h]
  norm_num

/-! ## C8: terminal value (corrected) -/

/-- The last DCF record exists for a nonempty series and carries the last
cash-flow sample. -/
lemma calculate_dcf_getLast (env : Env) (doc : StateData) (cf : List ℚ)
    (h : cf ≠ []) :
    ∃ rec, (calculate_dcf env doc cf).getLast? = some rec ∧
      rec.cashflow = cf.getLast h := by
  have hlen : (calculate_dcf env doc cf).length = cf.length :=
    dcfGo_length ((env.parseF doc.discount).getD 1) cf 1 0
  have hpos : 0 < cf.length := List.length_pos.mpr h
  have hlt : cf.length - 1 < cf.length := by omega
  have hlt' : cf.length - 1 < (calculate_dcf env doc cf).length := by omega
  refine ⟨(calculate_dcf env doc cf).get ⟨cf.length - 1, hlt'⟩, ?_, ?_⟩
  · rw [List.getLast?_eq_getElem?,
      show (calculate_dcf env doc cf).length - 1 = cf.length - 1 by omega,
      List.getElem?_eq_getElem hlt']
    rfl
  · have hget := (dcfGo_get ((env.parseF doc.discount).getD 1) cf 1 0
      (cf.length - 1) hlt hlt').1
    exact hget.trans (List.getLast_eq_getElem cf h).symm

/-- C8 (amended). For a nonempty cash-flow series the displayed terminal
value is computed from the last record's cash-flow sample `C_last` (which
equals the last cash-flow sample) as `(C_last * growth) / (discount -
growth)` with both rates parsed from text with fallback 1.0 and no guard on
the denominator; when `discount = growth` the IEEE division by the exact
zero denominator yields `+∞`, `-∞` or NaN (by the sign of `C_last *
growth`) propagated as-is, while when `discount < growth` the denominator
is a negative finite number and the result is finite (of inverted sign) —
not an infinity or NaN.  The displayed total is the terminal value plus the
last cumulative discounted sum. -/
theorem terminal_value_amended (env : Env) (doc : StateData) (cf : List ℚ)
    (h : cf ≠ []) :
    ∃ rec, (calculate_dcf env doc cf).getLast? = some rec ∧
      rec.cashflow = cf.getLast h ∧
      (displayedTerminal env doc (calculate_dcf env doc cf) =
        (if (env.parseF doc.discount).getD 1 - (env.parseF doc.growth).getD 1 = 0
         then
           if 0 < cf.getLast h * (env.parseF doc.growth).getD 1 then Fp.pinf
           else if cf.getLast h * (env.parseF doc.growth).getD 1 < 0 then Fp.ninf
           else Fp.nan
         else Fp.fin (cf.getLast h * (env.parseF doc.growth).getD 1 /
           ((env.parseF doc.discount).getD 1 - (env.parseF doc.growth).getD 1)))) ∧
      ((env.parseF doc.discount).getD 1 = (env.parseF doc.growth).getD 1 →
        (displayedTerminal env doc (calculate_dcf env doc cf)).isNonFinite = true) ∧
      ((env.parseF doc.discount).getD 1 < (env.parseF doc.growth).getD 1 →
        ∃ q : ℚ, displayedTerminal env doc (calculate_dcf env doc cf) = .fin q) ∧
      displayedTotal env doc (calculate_dcf env doc cf) =
        fpAddFin (displayedTerminal env doc (calculate_dcf env doc cf))
          rec.dcf_sum := by
  obtain ⟨rec, hlast, hcash⟩ := calculate_dcf_getLast env doc cf h
  have hterm : displayedTerminal env doc (calculate_dcf env doc cf) =
      (if (env.parseF doc.discount).getD 1 - (env.parseF doc.growth).getD 1 = 0
       then
         if 0 < cf.getLast h * (env.parseF doc.growth).getD 1 then Fp.pinf
         else if cf.getLast h * (env.parseF doc.growth).getD 1 < 0 then Fp.ninf
         else Fp.nan
       else Fp.fin (cf.getLast h * (env.parseF doc.growth).getD 1 /
         ((env.parseF doc.discount).getD 1 - (env.parseF doc.growth).getD 1))) := by
    unfold displayedTerminal
    rw [hlast, ← hcash]
  refine ⟨rec, hlast, hcash, hterm, ?_, ?_, ?_⟩
  · intro heq
    rw [hterm, if_pos (by rw [heq, sub_self])]
    split
    · rfl
    · split
      · rfl
      · rfl
  · intro hltg
    rw [hterm, if_neg (sub_ne_zero.mpr (ne_of_lt hltg))]
    exact ⟨_, rfl⟩
  · unfold displayedTotal
    rw [hlast]
    rfl

/-- Counterexample to C8 as stated: with discount 2 parsed below growth 3
and last cash-flow sample 1, the unguarded denominator is `-1`, and the
displayed terminal value is the finite number `-3` — not `±∞` or NaN as
the claim asserts for `discount ≤ growth`. -/
theorem terminal_value_claim_cex :
    (envW.parseF docA.discount).getD 1 < (envW.parseF docA.growth).getD 1 ∧
    displayedTerminal envW docA (calculate_dcf envW docA [1]) = .fin (-3) ∧
    (Fp.fin (-3 : ℚ)).isNonFinite = false := by
  refine ⟨?_, ?_, rfl⟩
  · rw [show envW.parseF docA.discount = some 2 from by decide,
      show envW.parseF docA.growth = some 3 from by decide]
    norm_num
  · have hd : calculate_dcf envW docA [1] = [⟨1, 1, 1⟩] := by
      unfold calculate_dcf dcfGo
      norm_num [dcfGo]
    rw [hd]
    unfold displayedTerminal
    rw [show ([(⟨1, 1, 1⟩ : DcfData)].getLast?) = some ⟨1, 1, 1⟩ from rfl]
    rw [show envW.parseF docA.growth = some 3 from by decide,
      show envW.parseF docA.discount = some 2 from by decide]
    norm_num

/-- Witness for the amended C8 on the series `[1]` with growth 3 and
discount 2. -/
theorem terminal_value_amended_witness :
    ∃ rec, (calculate_dcf envW docA [1]).getLast? = some rec ∧
      rec.cashflow = ([1] : List ℚ).getLast (by simp) ∧
      (displayedTerminal envW docA (calculate_dcf envW docA [1]) =
        (if (envW.parseF docA.discount).getD 1 - (envW.parseF docA.growth).getD 1 = 0
         then
           if 0 < ([1] : List ℚ).getLast (by simp) * (envW.parseF docA.growth).getD 1
             then Fp.pinf
           else if ([1] : List ℚ).getLast (by simp) * (envW.parseF docA.growth).getD 1 < 0
             then Fp.ninf
           else Fp.nan
         else Fp.fin (([1] : List ℚ).getLast (by simp) * (envW.parseF docA.growth).getD 1 /
           ((envW.parseF docA.discount).getD 1 - (envW.parseF docA.growth).getD 1)))) ∧
      ((envW.parseF docA.discount).getD 1 = (envW.parseF docA.growth).getD 1 →
        (displayedTerminal envW docA (calculate_dcf envW docA [1])).isNonFinite = true) ∧
      ((envW.parseF docA.discount).getD 1 < (envW.parseF docA.growth).getD 1 →
        ∃ q : ℚ, displayedTerminal envW docA (calculate_dcf envW docA [1]) = .fin q) ∧
      displayedTotal envW docA (calculate_dcf envW docA [1]) =
        fpAddFin (displayedTerminal envW docA (calculate_dcf envW docA [1]))
          rec.dcf_sum :=
  terminal_value_amended envW docA [1] (by simp)

/-! ## C9: log-scale plot transform (corrected) -/

/-- Counterexample to C9 as stated: at the positive sample `1/10` the code
plots `f64::max(0.0, log10(1/10)) = max(0, -1) = 0`, whereas the claimed
transform `log10(max(value, 0))` is `-1`. -/
theorem log_scale_claim_cex :
    plotPoints true [(1 / 10 : ℝ)] = [(0, Fp.fin 0)] ∧
    specLogOfClamped ((1 : ℝ) / 10) = Fp.fin (-1) ∧
    Fp.fin (0 : ℝ) ≠ Fp.fin (-1) := by
  have hlogb : Real.logb 10 ((1 : ℝ) / 10) = -1 := by
    rw [one_div, Real.logb_inv, Real.logb_self_eq_one]
    all_goals norm_num
  refine ⟨?_, ?_, ?_⟩
  · unfold plotPoints fpLog10 fpMax0
    rw [show ([(1 / 10 : ℝ)].enum) = [(0, (1 / 10 : ℝ))] from rfl]
    rw [List.map_singleton, if_pos rfl, if_pos (by norm_num : (0:ℝ) < 1 / 10), hlogb]
    norm_num
  · unfold specLogOfClamped fpLog10
    rw [show max ((1 : ℝ) / 10) 0 = 1 / 10 from max_eq_left (by norm_num),
      if_pos (by norm_num : (0:ℝ) < 1 / 10), hlogb]
  · simp only [ne_eq, Fp.fin.injEq]
    norm_num

/-- C9 (amended). When `use_log_scale` is set, every plotted cash-flow
sample of value `v` is transformed to `f64::max(0.0, log10(v))` — the
clamp is applied to the output of the logarithm, not its input — so every
sample with `v ≤ 1` plots as 0 (for `v ≤ 0` the NaN or `-∞` produced by
`log10` is absorbed by Rust's `f64::max`, and for `0 < v ≤ 1` the
non-positive logarithm is clamped), while a sample with `v > 1` plots as
`log10(v)`. -/
theorem log_scale_amended (cf : List ℝ) (i : ℕ) (h : i < cf.length)
    (h2 : i < (plotPoints true cf).length) :
    (plotPoints true cf).get ⟨i, h2⟩ =
      (i, fpMax0 (fpLog10 (cf.get ⟨i, h⟩))) ∧
    (cf.get ⟨i, h⟩ ≤ 1 → ((plotPoints true cf).get ⟨i, h2⟩).2 = .fin 0) ∧
    (1 < cf.get ⟨i, h⟩ →
      ((plotPoints true cf).get ⟨i, h2⟩).2 =
        .fin (Real.logb 10 (cf.get ⟨i, h⟩))) := by
  have hpt : (plotPoints true cf).get ⟨i, h2⟩ =
      (i, fpMax0 (fpLog10 (cf.get ⟨i, h⟩))) := by
    unfold plotPoints
    simp [List.get_eq_getElem, List.getElem_map, List.getElem_enum]
  refine ⟨hpt, ?_, ?_⟩
  · intro hle
    rw [hpt]
    show fpMax0 (fpLog10 (cf.get ⟨i, h⟩)) = .fin 0
    unfold fpLog10 fpMax0
    by_cases hpos : 0 < cf.get ⟨i, h⟩
    · rw [if_pos hpos]
      have hnp : Real.logb 10 (cf.get ⟨i, h⟩) ≤ 0 :=
        Real.logb_nonpos (by norm_num) (le_of_lt hpos) hle
      show Fp.fin (max 0 (Real.logb 10 (cf.get ⟨i, h⟩))) = Fp.fin 0
      rw [max_eq_left hnp]
    · rw [if_neg hpos]
      by_cases hz : cf.get ⟨i, h⟩ = 0
      · rw [if_pos hz]
      · rw [if_neg hz]
  · intro hgt
    rw [hpt]
    show fpMax0 (fpLog10 (cf.get ⟨i, h⟩)) = .fin (Real.logb 10 (cf.get ⟨i, h⟩))
    unfold fpLog10 fpMax0
    rw [if_pos (lt_trans zero_lt_one hgt)]
    have hnn : 0 ≤ Real.logb 10 (cf.get ⟨i, h⟩) :=
      Real.logb_nonneg (by norm_num) (le_of_lt hgt)
    show Fp.fin (max 0 (Real.logb 10 (cf.get ⟨i, h⟩))) =
      Fp.fin (Real.logb 10 (cf.get ⟨i, h⟩))
    rw [max_eq_right hnn]

/-- Witness for the amended C9 at the single sample `2`, which plots as
`log10 2`. -/
theorem log_scale_amended_witness :
    (plotPoints true [(2 : ℝ)]).get ⟨0, by simp [plotPoints]⟩ =
      (0, fpMax0 (fpLog10 (([(2 : ℝ)]).get ⟨0, by simp⟩))) ∧
    (([(2 : ℝ)]).get ⟨0, by simp⟩ ≤ 1 →
      ((plotPoints true [(2 : ℝ)]).get ⟨0, by simp [plotPoints]⟩).2 = .fin 0) ∧
    (1 < ([(2 : ℝ)]).get ⟨0, by simp⟩ →
      ((plotPoints true [(2 : ℝ)]).get ⟨0, by simp [plotPoints]⟩).2 =
        .fin (Real.logb 10 (([(2 : ℝ)]).get ⟨0, by simp⟩))) :=
  log_scale_amended [(2 : ℝ)] 0 (by simp) (by simp [plotPoints])

/-! ## C3: sample counts, including the ODE resampling loop -/

/-- Counting lemma for the resampling loop over a uniform grid: processing
the grid points `j*s, (j+1)*s, …` with a counter `n` satisfying
`j*s - s < n < j*s + 1` pushes exactly enough samples to drive the counter
to `L + 1`, where the grid ends at `L + s` (one spacing past `L`). -/
lemma resampleGo_count_aux (s : ℚ) (hs0 : 0 < s) (hs1 : s ≤ 1) (L : ℕ) :
    ∀ (pts : List (ℚ × ℚ)) (j n : ℕ),
      (∀ (i : ℕ) (hi : i < pts.length),
        (pts.get ⟨i, hi⟩).1 = ((j : ℚ) + i) * s) →
      ((j : ℚ) + pts.length) * s = (L : ℚ) + s →
      ((j : ℚ) * s - s < (n : ℚ)) →
      ((n : ℚ) < (j : ℚ) * s + 1) →
      (resampleGo pts s n).length + n = L + 1 := by
  intro pts
  induction pts with
  | nil =>
    intro j n hfst hend hlow hup
    simp only [List.length_nil, Nat.cast_zero, add_zero] at hend
    have h1 : (L : ℚ) < n := by linarith
    have h2 : (n : ℚ) < (L : ℚ) + 2 := by linarith
    have h1' : L < n := by exact_mod_cast h1
    have h2' : n < L + 2 := by exact_mod_cast h2
    simp only [resampleGo, List.length_nil]
    omega
  | cons p rest ih =>
    intro j n hfst hend hlow hup
    obtain ⟨x, yv⟩ := p
    have hx : x = (j : ℚ) * s := by
      have h0 := hfst 0 (by simp)
      simpa using h0
    have hfst' : ∀ (i : ℕ) (hi : i < rest.length),
        (rest.get ⟨i, hi⟩).1 = (((j + 1 : ℕ) : ℚ) + i) * s := by
      intro i hi
      have hi' : i + 1 < ((x, yv) :: rest).length := by simp; omega
      have hh := hfst (i + 1) hi'
      rw [show (((x, yv) :: rest).get ⟨i + 1, hi'⟩) = rest.get ⟨i, hi⟩ from rfl]
        at hh
      rw [hh]
      push_cast
      ring
    have hend' : (((j + 1 : ℕ) : ℚ) + rest.length) * s = (L : ℚ) + s := by
      simp only [List.length_cons] at hend
      push_cast at hend ⊢
      linear_combination hend
    simp only [resampleGo]
    by_cases hc : x - (n : ℚ) > -s
    · rw [if_pos hc]
      rw [hx] at hc
      have haux := ih (j + 1) (n + 1) hfst'
        (by push_cast at hend' ⊢; linear_combination hend')
        (by push_cast; nlinarith) (by push_cast; nlinarith)
      simp only [List.length_cons]
      push_cast at haux
      omega
    · rw [if_neg hc]
      rw [hx] at hc
      push_neg at hc
      have haux := ih (j + 1) n hfst'
        (by push_cast at hend' ⊢; linear_combination hend')
        (by push_cast; nlinarith) (by push_cast; nlinarith)
      exact haux

/-- Counting lemma for the full resampling loop: over the uniform grid
`0, s, 2s, …, K*s = L` with `0 < s ≤ 1`, starting the counter at
`n0 ≤ 1`, the loop pushes exactly `L + 1 - n0` samples. -/
lemma resampleGo_count (s : ℚ) (hs0 : 0 < s) (hs1 : s ≤ 1) (L K : ℕ)
    (pts : List (ℚ × ℚ)) (hlen : pts.length = K + 1)
    (hfst : ∀ (i : ℕ) (hi : i < pts.length),
      (pts.get ⟨i, hi⟩).1 = (i : ℚ) * s)
    (hKs : (K : ℚ) * s = (L : ℚ)) (n0 : ℕ) (hn0 : n0 ≤ 1) :
    (resampleGo pts s n0).length + n0 = L + 1 := by
  cases pts with
  | nil => simp at hlen
  | cons p rest =>
    obtain ⟨x, yv⟩ := p
    have hx : x = 0 := by
      have h0 := hfst 0 (by simp)
      simpa using h0
    have hfst' : ∀ (i : ℕ) (hi : i < rest.length),
        (rest.get ⟨i, hi⟩).1 = (((1 : ℕ) : ℚ) + i) * s := by
      intro i hi
      have hi' : i + 1 < ((x, yv) :: rest).length := by simp; omega
      have hh := hfst (i + 1) hi'
      rw [show (((x, yv) :: rest).get ⟨i + 1, hi'⟩) = rest.get ⟨i, hi⟩ from rfl]
        at hh
      rw [hh]
      push_cast
      ring
    have hlen' : rest.length = K := by simpa using hlen
    have hend' : (((1 : ℕ) : ℚ) + rest.length) * s = (L : ℚ) + s := by
      rw [hlen']
      push_cast
      linear_combination hKs
    have haux := resampleGo_count_aux s hs0 hs1 L rest 1 1 hfst' hend'
      (by push_cast; nlinarith) (by push_cast; nlinarith)
    cases hn : n0 with
    | zero =>
      simp only [resampleGo, hx]
      rw [if_pos (by push_cast; linarith)]
      simpa using haux
    | succ m =>
      have hm : m = 0 := by omega
      subst hm
      simp only [resampleGo, hx]
      rw [if_neg (by push_cast; linarith)]
      simpa using haux

/-- Appended-length law for a successfully evaluated segment, for an
environment whose integrator produces uniform dense-output grids: the new
series extends the old one by exactly `len` samples, plus one leading
sample possible only when the old series is empty. -/
lemma segEval_length (env : Env) (hStr : String) (out : List ℚ) (len : ℕ)
    (e : String) (o : List ℚ) (hGrid : SolverGrid env)
    (hE : segEval env hStr out len e = some o) :
    (out ≠ [] → o.length = out.length + len) ∧
    (out = [] → o.length = len ∨ o.length = len + 1) := by
  by_cases hy : strContains e 'y'
  · cases hb : env.bind2 e with
    | none =>
      have hE' : segEval env hStr out len e = some (zeroFill out len) := by
        unfold segEval
        simp [hy, hb]
      rw [hE'] at hE
      have ho : o = zeroFill out len := by simpa using hE.symm
      subst ho
      constructor
      · intro _; simp [zeroFill]
      · intro hout; subst hout; left; simp [zeroFill]
    | some f =>
      have hE' : segEval env hStr out len e = odeEval env hStr out len f := by
        unfold segEval
        simp [hy, hb]
      rw [hE'] at hE
      unfold odeEval at hE
      cases hs : env.solve ⟨f, 0, (len : ℚ), (env.parseF hStr).getD 1,
          (out.getLast?).getD 0, 1 / 10 ^ 10, 1 / 10 ^ 10⟩ with
      | none =>
        simp only [hs] at hE
        have ho : o = zeroFill out len := by simpa using hE.symm
        subst ho
        constructor
        · intro _; simp [zeroFill]
        · intro hout; subst hout; left; simp [zeroFill]
      | some xy =>
        obtain ⟨xs, ys⟩ := xy
        simp only [hs] at hE
        obtain ⟨s, K, hs0, hs1, hKs, hxs, hylen⟩ := hGrid _ _ _ hs
        rcases xs with _ | ⟨x0, _ | ⟨x1, rest⟩⟩
        · exact absurd hE (by simp)
        · exact absurd hE (by simp)
        · simp only [Option.some.injEq] at hE
          have hlen2 := congrArg List.length hxs
          simp only [List.length_cons, List.length_map, List.length_range]
            at hlen2
          have hK1 : 1 ≤ K := by omega
          have hx0 : x0 = 0 := by
            have hq := congrArg (fun l : List ℚ => l[0]?) hxs
            simp at hq
            exact hq
          have hx1 : x1 = s := by
            have hq := congrArg (fun l : List ℚ => l[1]?) hxs
            simp [show (1 : ℕ) < K + 1 from by omega] at hq
            exact hq
          have hstep : x1 - x0 = s := by rw [hx0, hx1, sub_zero]
          have hlenpts : ((x0 :: x1 :: rest).zip ys).length = K + 1 := by
            rw [List.length_zip, hylen, min_self]
            simp only [List.length_cons]
            omega
          have hfst : ∀ (i : ℕ) (hi : i < ((x0 :: x1 :: rest).zip ys).length),
              (((x0 :: x1 :: rest).zip ys).get ⟨i, hi⟩).1 = (i : ℚ) * s := by
            intro i hi
            have hi' : i < K + 1 := by rw [hlenpts] at hi; exact hi
            have hixs : i < (x0 :: x1 :: rest).length := by
              simp only [List.length_cons]
              omega
            rw [List.get_eq_getElem, List.getElem_zip]
            show (x0 :: x1 :: rest).get ⟨i, hixs⟩ = (i : ℚ) * s
            have hq := congrArg (fun l : List ℚ => l[i]?) hxs
            simp only [List.getElem?_map] at hq
            rw [List.getElem?_eq_getElem hixs,
              List.getElem?_eq_getElem
                (show i < (List.range (K + 1)).length by simpa using hi')] at hq
            simpa using hq
          have hL : (K : ℚ) * s = (len : ℚ) := hKs
          have hcount := resampleGo_count s hs0 hs1 len K
            ((x0 :: x1 :: rest).zip ys) hlenpts hfst hL
            (if out.isEmpty then 0 else 1) (by split <;> omega)
          rw [← hE]
          constructor
          · intro hout
            have hie : out.isEmpty = false := by
              simpa [List.isEmpty_iff] using hout
            simp only [hie, Bool.false_eq_true, if_false] at hcount
            simp only [List.length_append, hstep, hie, Bool.false_eq_true,
              if_false]
            omega
          · intro hout
            subst hout
            simp only [List.isEmpty_nil, if_true] at hcount
            right
            simp only [List.length_append, hstep, List.isEmpty_nil, if_true,
              List.length_nil]
            omega
  · by_cases ht : strContains e 't'
    · cases hb : env.bind1 e with
      | none =>
        have hE' : segEval env hStr out len e = some (zeroFill out len) := by
          unfold segEval
          simp [hy, ht, hb]
        rw [hE'] at hE
        have ho : o = zeroFill out len := by simpa using hE.symm
        subst ho
        constructor
        · intro _; simp [zeroFill]
        · intro hout; subst hout; left; simp [zeroFill]
      | some f =>
        have hE' : segEval env hStr out len e =
            some ((if out.isEmpty then out ++ [f 0] else out) ++
              (List.range len).map (fun t : ℕ => f ((t : ℚ) + 1))) := by
          unfold segEval
          simp [hy, ht, hb]
        rw [hE'] at hE
        have ho := (Option.some.injEq _ _).mp hE
        rw [← ho]
        constructor
        · intro hout
          have hie : out.isEmpty = false := by
            simpa [List.isEmpty_iff] using hout
          simp [hie]
        · intro hout
          subst hout
          right
          simp
    · cases hb : env.evalConst e with
      | none =>
        have hE' : segEval env hStr out len e = some (zeroFill out len) := by
          unfold segEval
          simp [hy, ht, hb]
        rw [hE'] at hE
        have ho : o = zeroFill out len := by simpa using hE.symm
        subst ho
        constructor
        · intro _; simp [zeroFill]
        · intro hout; subst hout; left; simp [zeroFill]
      | some c =>
        have hE' : segEval env hStr out len e =
            some ((if out.isEmpty then out ++ [c] else out) ++
              List.replicate len c) := by
          unfold segEval
          simp [hy, ht, hb]
        rw [hE'] at hE
        have ho := (Option.some.injEq _ _).mp hE
        rw [← ho]
        constructor
        · intro hout
          have hie : out.isEmpty = false := by
            simpa [List.isEmpty_iff] using hout
          simp [hie]
        · intro hout
          subst hout
          right
          simp

/-- Environment `envG` satisfies the uniform-grid side condition: its only
successful answer is the spacing-1 grid `[0, 1, 2]` over `[0, 2]`. -/
lemma envG_solverGrid : SolverGrid envG := by
  intro inp xs ys h
  have h' : (if inp.tEnd = 2 then
      some (([0, 1, 2] : List ℚ), ([7, 8, 9] : List ℚ)) else none) =
      some (xs, ys) := h
  by_cases h2 : inp.tEnd = 2
  · rw [if_pos h2] at h'
    simp only [Option.some.injEq, Prod.mk.injEq] at h'
    refine ⟨1, 2, by norm_num, le_refl 1, by rw [h2]; norm_num, ?_, ?_⟩
    · rw [← h'.1]
      norm_num [List.range_succ]
    · rw [← h'.1, ← h'.2]
      rfl
  · rw [if_neg h2] at h'
    exact absurd h' (by simp)

/-- Concrete ODE step under `envG`: segment `end=2, expr="y"` over
an empty series resamples the grid `[0, 1, 2]` into three samples
(`y(0)`, `y(1)`, `y(2)`), the leading one included. -/
lemma stepRow_envG_ode :
    stepRow envG "1" ([], 0) ⟨"2", "y"⟩ = .ok ([7, 8, 9], 2) := by
  have hres : resampleGo [((0 : ℚ), (7 : ℚ)), (1, 8), (2, 9)] 1 0 =
      [7, 8, 9] := by
    norm_num [resampleGo]
  unfold stepRow segEval odeEval
  norm_num [envG, hres,
    show (parseUsize (⟨"2", "y"⟩ : Row).end_).getD 0 = 2 from by decide,
    show strContains "y" 'y' = true from by decide]

/-- Concrete ODE step under `envBad` (spacing 3 over `[0, 5]`): the
resampling loop pushes at every one of the three output times, appending
only three samples for the length-5 segment. -/
lemma stepRow_envBad_ode :
    stepRow envBad "3" ([], 0) ⟨"5", "y"⟩ = .ok ([7, 8, 9], 5) := by
  have hres : resampleGo [((0 : ℚ), (7 : ℚ)), (3, 8), (5, 9)] 3 0 =
      [7, 8, 9] := by
    norm_num [resampleGo]
  unfold stepRow segEval odeEval
  norm_num [envBad, hres,
    show (parseUsize (⟨"5", "y"⟩ : Row).end_).getD 0 = 5 from by decide,
    show strContains "y" 'y' = true from by decide]

/-- Counterexample to C3 as stated: with the reachable configuration
`ode_step_size = "3"` and a single ODE segment `end=5, expr="y"` — the
integrator's dense output over `[0, 5]` being the spacing-3 grid
`[0, 3, 5]` — the projection completes normally but the series holds only
3 samples, where the claim demands 5 appended samples plus the leading one
(the series was empty), i.e. 6. -/
theorem segment_sample_count_claim_cex :
    calculate_cashflow envBad docE = .success [7, 8, 9] ∧
    (parseUsize (⟨"5", "y"⟩ : Row).end_).getD 0 - 0 = 5 ∧
    ([7, 8, 9] : List ℚ).length = 3 ∧
    (3 : ℕ) ≠ 5 ∧ (3 : ℕ) ≠ 5 + 1 := by
  refine ⟨?_, by decide, rfl, by decide, by decide⟩
  unfold calculate_cashflow
  show calcRows envBad docE.ode_step_size [⟨"5", "y"⟩] ([], 0) =
    .success [7, 8, 9]
  unfold calcRows
  rw [show docE.ode_step_size = "3" from rfl, stepRow_envBad_ode]
  rfl

/-- C3 (amended). Every step that completes normally carries
`prev_period = end_period` and appends exactly
`end_period - prev_period` samples to the series (plus one extra leading
sample possible only when the series is still empty).  For constant,
time-function and failing segments this is unconditional; for ODE
segments, whose appended samples come from resampling the integrator's
dense-output trajectory, it holds provided that trajectory is a uniform
grid of spacing `0 < s ≤ 1` ending exactly at the segment length
(`SolverGrid` — true of the default `ode_step_size = 0.01`); with a larger
configured spacing (e.g. 3 over a length-5 segment, output times
`[0, 3, 5]`) the resampling emits fewer samples and the count invariant
fails, see the counterexample. -/
theorem segment_sample_count (env : Env) (hStr : String) (out : List ℚ)
    (prev : ℕ) (row : Row) (out' : List ℚ) (prev' : ℕ)
    (hGrid : SolverGrid env)
    (h : stepRow env hStr (out, prev) row = .ok (out', prev')) :
    prev' = (parseUsize row.end_).getD 0 ∧
    (out ≠ [] →
      out'.length = out.length + ((parseUsize row.end_).getD 0 - prev)) ∧
    (out = [] →
      out'.length = ((parseUsize row.end_).getD 0 - prev) ∨
      out'.length = ((parseUsize row.end_).getD 0 - prev) + 1) := by
  unfold stepRow at h
  by_cases hlt : (parseUsize row.end_).getD 0 < (out, prev).2
  · rw [if_pos hlt] at h
    exact absurd h (by simp)
  · rw [if_neg hlt] at h
    cases hE : segEval env hStr out ((parseUsize row.end_).getD 0 - prev)
        row.expr with
    | none => rw [hE] at h; exact absurd h (by simp)
    | some o =>
      rw [hE] at h
      simp only [StepRes.ok.injEq, Prod.mk.injEq] at h
      obtain ⟨ho, hp⟩ := h
      have hlaw := segEval_length env hStr out
        ((parseUsize row.end_).getD 0 - prev) row.expr o hGrid hE
      subst ho
      exact ⟨hp.symm, hlaw.1, hlaw.2⟩

/-- Witness for the amended C3, exercising the ODE path: under `envG`
(uniform spacing-1 dense output) the length-2 ODE segment over an empty
series appends its two samples plus the leading one. -/
theorem segment_sample_count_witness :
    (2 : ℕ) = (parseUsize (⟨"2", "y"⟩ : Row).end_).getD 0 ∧
    (([] : List ℚ) ≠ [] →
      ([7, 8, 9] : List ℚ).length =
        ([] : List ℚ).length + ((parseUsize (⟨"2", "y"⟩ : Row).end_).getD 0 - 0)) ∧
    (([] : List ℚ) = [] →
      ([7, 8, 9] : List ℚ).length =
        ((parseUsize (⟨"2", "y"⟩ : Row).end_).getD 0 - 0) ∨
      ([7, 8, 9] : List ℚ).length =
        ((parseUsize (⟨"2", "y"⟩ : Row).end_).getD 0 - 0) + 1) :=
  segment_sample_count envG "1" [] 0 ⟨"2", "y"⟩ [7, 8, 9] 2
    envG_solverGrid stepRow_envG_ode

end DcfSim
